import Mathlib

/-!
Verification of the `log` package: level filtering, throttled error display,
the asynchronous job queue used by the file and server sinks, and the
log-rotation algorithm of the file sink.

Sections:
* Log levels and minimum-level filtering (`level.go`, `transporters.go`).
* Throttled error display (`FileTransporter.showError`,
  `ServerTransporter.showError` in `transporters.go`).
* The job queue of the sinks, as a labelled transition system.
* The file sink's write/rotation state machine (`transporters.go`,
  `utils.go`).
-/

set_option linter.unusedVariables false

/-! ## Log levels (`level.go`) -/

/-- Embedding of `Level.Index` from `level.go`: the severity of a level
string; every string other than the six recognized names maps to 0. -/
def Level.Index (l : String) : ℕ :=
  if l = "trace" then 1
  else if l = "debug" then 2
  else if l = "info" then 3
  else if l = "warn" then 4
  else if l = "error" then 5
  else if l = "fatal" then 6
  else 0

/-- The six recognized level names, in increasing severity. -/
def levelNames : List String :=
  ["trace", "debug", "info", "warn", "error", "fatal"]

/-- Embedding of the minimum-level filter used by
`ConsoleTransporter.Transport`, `FileTransporter.Transport` and
`ServerTransporter.Transport` (`transporters.go`): an entry is skipped
iff its level index is strictly below the index of `MinLevel`. -/
def transportSkips (level minLevel : String) : Prop :=
  Level.Index level < Level.Index minLevel

instance (level minLevel : String) : Decidable (transportSkips level minLevel) := by
  unfold transportSkips; infer_instance

/-- Embedding of the `MinLevel` normalization performed by
`FileTransporter.Init` and `ServerTransporter.Init` (`transporters.go`):
a non-empty `MinLevel` whose index is 0 is replaced by the empty string. -/
def initMinLevel (m : String) : String :=
  if m ≠ "" ∧ Level.Index m = 0 then "" else m

/-! ## Throttled error display (`transporters.go`) -/

/-- `10 * int64(time.Minute)` in nanoseconds, the error cool-down used by
`ServerTransporter.showError`. -/
def errorCooldown : ℤ := 10 * 60 * 1000000000

/-- Embedding of `FileTransporter.showError` (`transporters.go`): every
error is printed to the console unless `SuppressErrors` is set; there is
no time-based throttling.  The result is the number of error lines
emitted after one more error arrives. -/
def fileShowError (suppressErrors : Bool) (emitted : ℕ) : ℕ :=
  if suppressErrors then emitted else emitted + 1

/-- Number of error lines `FileTransporter.showError` emits for a whole
burst of failures (one call per failure). -/
def fileShowErrorRun (suppressErrors : Bool) (failures : List ℤ) : ℕ :=
  failures.foldl (fun acc _ => fileShowError suppressErrors acc) 0

/-- State of `ServerTransporter`'s throttled error display:
`lastErrorShown` as in the struct, plus the (ghost) list of times at
which an error line was actually printed. -/
structure SrvErrState where
  lastErrorShown : ℤ
  emits : List ℤ
deriving DecidableEq, Repr

/-- Embedding of `ServerTransporter.showError` (`transporters.go`): an
error arriving at time `now` is printed iff errors are not suppressed and
`lastErrorShown + 10*time.Minute < now`; printing updates
`lastErrorShown` to `now`. -/
def serverShowError (suppressErrors : Bool) (now : ℤ) (s : SrvErrState) : SrvErrState :=
  if ¬suppressErrors ∧ s.lastErrorShown + errorCooldown < now then
    { lastErrorShown := now, emits := s.emits ++ [now] }
  else s

/-- Running `ServerTransporter.showError` over a sequence of failure
times. -/
def serverShowErrorRun (suppressErrors : Bool) (failures : List ℤ) (s : SrvErrState) :
    SrvErrState :=
  failures.foldl (fun st t => serverShowError suppressErrors t st) s

/-! ## The sinks' job queue

The file and server sinks construct their queue with
`newQueue(handler, 1, 1024)` and drive it through `queue.addJob` and
`queue.close` (`transporters.go` lines 168, 311, 317, 434, 471, 477).
That three-argument `newQueue` and the `addJob`/`close` methods are not
part of the sources available here; `queue.go` holds an earlier revision
with an incompatible interface (`newQueue(handler, concurrencyLimit)`,
`pushJob`, `stopQueue`) that the sinks no longer call.  The queue the
sinks actually use is therefore modelled from the specification. -/

/-- Modelled from the spec: the state of the bounded job queue created by
`newQueue(handler, workerCount, capacity)` — missing from the sources,
only its callers in `transporters.go` remain.  `cap` is the capacity
fixed at construction; `pending` are the accepted but not yet executed
jobs in submission order; `executed` are the jobs whose handler run has
completed, in execution order; `closed` is the closed flag; `accepted`
is the ghost list of all jobs for which `submit` returned true, in
submission order.  Jobs are identified by natural numbers. -/
structure QState where
  qcap : ℕ
  pending : List ℕ
  executed : List ℕ
  closed : Bool
  accepted : List ℕ
deriving DecidableEq, Repr

/-- The initial state produced by `newQueue`: empty buffer, open. -/
def qInit (capacity : ℕ) : QState :=
  { qcap := capacity, pending := [], executed := [], closed := false, accepted := [] }

/-- Observable events of the queue. -/
inductive QEvent where
  | submit (j : ℕ) (ok : Bool)
  | exec (j : ℕ)
  | closeBegin
  | closeEnd
deriving DecidableEq, Repr

/-- Modelled from the spec: one step of the queue (worker count 1, as
used by both sinks).
* `submit` on an open queue with a free slot accepts the job
  (returns true); on a full open queue no `submit` step is enabled —
  the producer blocks; on a closed queue `submit` returns false and
  changes nothing.
* `exec` is the single worker running the handler on the oldest pending
  job.
* `closeBegin` marks the queue closed; `closeEnd` (the return of
  `close()`) is only enabled once every accepted job has been executed. -/
inductive QStep : QState → QEvent → QState → Prop where
  | submitOk {q : QState} {j : ℕ} :
      q.closed = false →
      q.pending.length < q.qcap →
      QStep q (.submit j true)
        { q with pending := q.pending ++ [j], accepted := q.accepted ++ [j] }
  | submitClosed {q : QState} {j : ℕ} :
      q.closed = true →
      QStep q (.submit j false) q
  | exec {q : QState} {j : ℕ} {rest : List ℕ} :
      q.pending = j :: rest →
      QStep q (.exec j) { q with pending := rest, executed := q.executed ++ [j] }
  | closeBegin {q : QState} :
      QStep q .closeBegin { q with closed := true }
  | closeEnd {q : QState} :
      q.closed = true →
      q.pending = [] →
      QStep q .closeEnd q

/-- A finite run of the queue: `QTrace q evs q'` means the events `evs`
lead from state `q` to state `q'`. -/
inductive QTrace : QState → List QEvent → QState → Prop where
  | nil (q : QState) : QTrace q [] q
  | cons {q q' q'' : QState} {ev : QEvent} {evs : List QEvent} :
      QStep q ev q' → QTrace q' evs q'' → QTrace q (ev :: evs) q''

/-- The basic queue invariant: the capacity recorded in the state is the
construction-time capacity, the accepted jobs are exactly the executed
ones followed by the pending ones, and the buffer never exceeds the
capacity. -/
def QInv (capacity : ℕ) (q : QState) : Prop :=
  q.qcap = capacity ∧ q.accepted = q.executed ++ q.pending ∧
    q.pending.length ≤ capacity

/-- Every step of the queue preserves the basic invariant. -/
theorem qstep_inv {capacity : ℕ} {q q' : QState} {ev : QEvent}
    (h : QStep q ev q') (hinv : QInv capacity q) : QInv capacity q' := by
  obtain ⟨hcap, hacc, hlen⟩ := hinv
  cases h with
  | submitOk hclosed hfull =>
      refine ⟨hcap, ?_, ?_⟩
      · simp only [hacc, List.append_assoc]
      · simp only [List.length_append, List.length_singleton]
        omega
  | submitClosed hclosed => exact ⟨hcap, hacc, hlen⟩
  | exec hpending =>
      refine ⟨hcap, ?_, ?_⟩
      · simp only [hacc, hpending, List.append_assoc, List.singleton_append]
      · simp only [hpending, List.length_cons] at hlen
        simp only []
        omega
  | closeBegin => exact ⟨hcap, hacc, hlen⟩
  | closeEnd hclosed hpending => exact ⟨hcap, hacc, hlen⟩

/-- The basic invariant holds along every trace. -/
theorem qtrace_inv {capacity : ℕ} {q q' : QState} {evs : List QEvent}
    (h : QTrace q evs q') (hinv : QInv capacity q) : QInv capacity q' := by
  induction h with
  | nil => exact hinv
  | cons hstep htrace ih => exact ih (qstep_inv hstep hinv)

/-- The basic invariant for runs that start at `newQueue`'s state. -/
theorem qtrace_init_inv {capacity : ℕ} {evs : List QEvent} {q : QState}
    (h : QTrace (qInit capacity) evs q) : QInv capacity q :=
  qtrace_inv h ⟨rfl, rfl, by simp [qInit]⟩

/-! ## The file sink (`transporters.go`, `utils.go`)

The directory is modelled as the family of archive files
`<prefix>.<N>.gz` for the sink's own prefix: an association list from
the generation index `N` to the file's content, where a content is the
list of log-entry identifiers the file holds.  The live log file is a
separate list of entry identifiers. -/

/-- Look up the content of archive generation `k`. -/
def lookupA (a : List (ℕ × List ℕ)) (k : ℕ) : Option (List ℕ) :=
  match a.find? (fun p => p.1 = k) with
  | some p => some p.2
  | none => none

/-- Remove archive generation `k` (`os.Remove`). -/
def eraseA (a : List (ℕ × List ℕ)) (k : ℕ) : List (ℕ × List ℕ) :=
  a.filter (fun p => p.1 ≠ k)

/-- Create or overwrite archive generation `k` with content `v`. -/
def setA (a : List (ℕ × List ℕ)) (k : ℕ) (v : List ℕ) : List (ℕ × List ℕ) :=
  (k, v) :: eraseA a k

/-- Whether archive generation `k` exists (`fileExists`). -/
def hasKeyA (a : List (ℕ × List ℕ)) (k : ℕ) : Bool :=
  (a.find? (fun p => p.1 = k)).isSome

/-- The set of generation indices present in the directory. -/
def keysA (a : List (ℕ × List ℕ)) : Finset ℕ :=
  (a.map Prod.fst).toFinset

/-- Whether the archive-name regex `(.+).(\d+).gz` of `transporters.go`
recognizes the canonical archive name `<prefix>.<i>.gz` with its own
prefix.  The first group `(.+)` is greedy and the dots are unescaped, so
for an index of two or more decimal digits the group captures the prefix
together with a trailing dot and all but the last digit; the prefix
comparison in `rotateArchives` then fails and the file is skipped.  Only
single-digit indices are recognized. -/
def archiveParsed (i : ℕ) : Bool :=
  i < 10

/-- The deletion test of `FileTransporter.rotateArchives`
(`transporters.go`): a recognized archive is removed instead of renamed
when `t.Rotations > 0 && index+1 >= t.Rotations`.  `rotations` is the
`Rotations` field, a Go `int`. -/
def archiveDeleted (rotations : ℤ) (i : ℕ) : Bool :=
  archiveParsed i && decide (0 < rotations ∧ rotations ≤ (i : ℤ) + 1)

/-- A recognized archive that is not deleted is scheduled for the rename
`<prefix>.<i>.gz → <prefix>.<i+1>.gz`. -/
def archiveRenamed (rotations : ℤ) (i : ℕ) : Bool :=
  archiveParsed i && !archiveDeleted rotations i

/-- Applying the renames computed by `rotateArchives` through
`renameAll` (`utils.go`).  `renameAll` never populates its `filenames`
set, so the chain detection is inert and each rename `i → i+1` is
applied directly, in Go's (arbitrary) map-iteration order; `order` is
that iteration order, as the list of source indices.  `os.Rename`
replaces the destination, so a destination that still holds an unmoved
file is overwritten. -/
def applyRenames (order : List ℕ) (a : List (ℕ × List ℕ)) : List (ℕ × List ℕ) :=
  match order with
  | [] => a
  | i :: rest =>
      match lookupA a i with
      | some v => applyRenames rest (setA (eraseA a i) (i + 1) v)
      | none => applyRenames rest a

/-- Embedding of `FileTransporter.rotateArchives` (`transporters.go`):
every recognized archive at or beyond the retention bound is removed
during the directory scan; the remaining recognized archives are then
renamed up by one via `renameAll`, in map order `order`. -/
def rotateArchives (rotations : ℤ) (order : List ℕ) (a : List (ℕ × List ℕ)) :
    List (ℕ × List ℕ) :=
  applyRenames order (a.filter (fun p => !archiveDeleted rotations p.1))

/-- Error oracle for one call of `FileTransporter.rotate`: whether
`ioutil.ReadDir`/`renameAll` fails inside `rotateArchives`, whether
opening `<prefix>.1.gz` fails, whether the `io.Copy` into the gzip
stream fails, and whether `Truncate(0)` of the live file fails. -/
structure RotErr where
  readDirErr : Bool
  openErr : Bool
  copyErr : Bool
  truncErr : Bool
deriving DecidableEq, Repr

/-- The error-free oracle. -/
def noRotErr : RotErr := ⟨false, false, false, false⟩

/-- Configuration of a `FileTransporter`: `RotateBytes`, `RotateLines`
and `Rotations`, all Go integers. -/
structure FileCfg where
  rotateBytes : ℤ
  rotateLines : ℤ
  rotations : ℤ
deriving DecidableEq, Repr

/-- Mutable state of a `FileTransporter`: the live log file's entries,
the running byte and line counters `fsize` and `flines`, the archive
directory, and a ghost counter of rotation attempts that passed the
initial guard of `rotate`. -/
structure FState where
  live : List ℕ
  fsize : ℤ
  flines : ℤ
  archives : List (ℕ × List ℕ)
  rotCount : ℕ
deriving DecidableEq, Repr

/-- One pass of the archive-shift loop in `FileTransporter.rotate`
(`transporters.go`): while `<prefix>.1.gz` exists, call `rotateArchives`;
if `rotateArchives` fails the error is reported and the loop breaks with
the directory as it was. -/
def rotateShift (rotations : ℤ) (e : RotErr) (order : List ℕ)
    (a : List (ℕ × List ℕ)) : List (ℕ × List ℕ) :=
  if hasKeyA a 1 then
    if e.readDirErr then a else rotateArchives rotations order a
  else a

/-- The full archive-shift loop of `FileTransporter.rotate`.  The body
can run a second time only when a generation-0 archive was shifted into
slot 1, and after that second pass generation 1 can no longer exist, so
the loop is exactly two conditional passes. -/
def rotatedArchives (rotations : ℤ) (e : RotErr) (order : List ℕ)
    (a : List (ℕ × List ℕ)) : List (ℕ × List ℕ) :=
  rotateShift rotations e order (rotateShift rotations e order a)

/-- Embedding of `FileTransporter.rotate` (`transporters.go`).  The
steps, in source order: the counter guard; the shift loop (a
`rotateArchives` error only breaks the loop — the body below still
runs); opening `<prefix>.1.gz` with `O_TRUNC` (on error: return, the
directory keeps the shifted names); copying the live file into the gzip
stream (on error: return, the old generation-1 archive already truncated
away); truncating the live file (on error: return, counters not reset);
resetting both counters. -/
def fileRotate (cfg : FileCfg) (e : RotErr) (order : List ℕ) (st : FState) : FState :=
  if (cfg.rotateBytes > 0 ∧ st.fsize = 0) ∨ (cfg.rotateLines > 0 ∧ st.flines = 0) then st
  else if e.openErr then
    { st with
      rotCount := st.rotCount + 1
      archives := rotatedArchives cfg.rotations e order st.archives }
  else if e.copyErr then
    { st with
      rotCount := st.rotCount + 1
      archives := setA (rotatedArchives cfg.rotations e order st.archives) 1 [] }
  else if e.truncErr then
    { st with
      rotCount := st.rotCount + 1
      archives := setA (rotatedArchives cfg.rotations e order st.archives) 1 st.live }
  else
    { st with
      rotCount := st.rotCount + 1
      archives := setA (rotatedArchives cfg.rotations e order st.archives) 1 st.live
      live := []
      fsize := 0
      flines := 0 }

/-- The state of the sink after `WriteString` and the counter updates in
the queue handler of `FileTransporter.runQueue` (`transporters.go`):
the formatted entry (identifier `x`, `n` bytes) is appended to the live
file and each counter is bumped only when its rotation mode is
enabled. -/
def handleWritten (cfg : FileCfg) (n : ℤ) (x : ℕ) (st : FState) : FState :=
  { st with
    live := st.live ++ [x]
    fsize := if cfg.rotateBytes > 0 then st.fsize + n else st.fsize
    flines := if cfg.rotateLines > 0 then st.flines + 1 else st.flines }

/-- Embedding of the queue handler installed by
`FileTransporter.runQueue` (`transporters.go`), for a successful
`WriteString`: append the entry, bump the enabled counters, and rotate
when a threshold is reached. -/
def handleEntry (cfg : FileCfg) (e : RotErr) (order : List ℕ) (n : ℤ) (x : ℕ)
    (st : FState) : FState :=
  if cfg.rotateBytes > 0 ∧ (handleWritten cfg n x st).fsize ≥ cfg.rotateBytes then
    fileRotate cfg e order (handleWritten cfg n x st)
  else if cfg.rotateLines > 0 ∧ (handleWritten cfg n x st).flines ≥ cfg.rotateLines then
    fileRotate cfg e order (handleWritten cfg n x st)
  else handleWritten cfg n x st

/-- Embedding of `FileTransporter.Init` (`transporters.go`): open the
live file (content `live`, size `sz` bytes) over directory `arch`; the
byte counter is initialized from `Stat` only when byte rotation is
enabled, and the line counter from `countLines` only when line rotation
is enabled. -/
def fileInit (cfg : FileCfg) (live : List ℕ) (sz : ℤ) (arch : List (ℕ × List ℕ)) :
    FState :=
  { live := live,
    fsize := if cfg.rotateBytes > 0 then sz else 0,
    flines := if cfg.rotateLines > 0 then (live.length : ℤ) else 0,
    archives := arch,
    rotCount := 0 }

/-- Writing a sequence of entries through the queue handler. -/
def writeSeq (cfg : FileCfg) (e : RotErr) (order : List ℕ) (es : List (ℤ × ℕ))
    (st : FState) : FState :=
  es.foldl (fun s p => handleEntry cfg e order p.1 p.2 s) st

/-- The closed-guard of `FileTransporter.Transport` (`transporters.go`):
an entry is enqueued on the sink's queue iff the sink is not closed and
the entry passes the minimum-level filter. -/
def fileTransportEnqueues (closed : Bool) (level minLevel : String) : Bool :=
  !closed && !decide (transportSkips level minLevel)

/-- One archive-shift pass of `rotateArchives`, viewed on the set of
generation indices only (contents ignored), assuming `renameAll` applies
the renames from the highest source index downwards so that no
destination still holds an unmoved file: unrecognized (multi-digit)
indices stay, indices at or beyond the retention bound disappear, the
others move up by one. -/
def shiftIdx (rotations : ℤ) (S : Finset ℕ) : Finset ℕ :=
  S.filter (fun i => !archiveParsed i) ∪
    (S.filter (fun i => archiveRenamed rotations i)).image (· + 1)

/-- `FileTransporter.rotate` viewed on the set of generation indices,
under the same descending-order assumption: the shift loop runs while
generation 1 exists (at most twice, since a second pass is possible only
when a generation-0 archive was shifted into slot 1), and the compressed
live file then becomes the new generation 1. -/
def rotateIdx (rotations : ℤ) (S : Finset ℕ) : Finset ℕ :=
  insert 1
    (if 1 ∈ S then
      if 1 ∈ shiftIdx rotations S then shiftIdx rotations (shiftIdx rotations S)
      else shiftIdx rotations S
    else S)

/-! ## Claim C10: unrecognized minimum levels -/

/-- C10: for every transporter, a `MinLevel` that is not one of the six
recognized level names has severity index 0, the minimum-level filter
then passes every entry, and sink initialization normalizes such a
`MinLevel` to the empty string. -/
theorem C10_unrecognized_minlevel (m : String) (h : m ∉ levelNames) :
    Level.Index m = 0 ∧ (∀ l : String, ¬ transportSkips l m) ∧
      initMinLevel m = "" := by
  simp only [levelNames, List.mem_cons, List.not_mem_nil, or_false, not_or] at h
  obtain ⟨h1, h2, h3, h4, h5, h6⟩ := h
  have h0 : Level.Index m = 0 := by
    simp [Level.Index, h1, h2, h3, h4, h5, h6]
  refine ⟨h0, fun l => ?_, ?_⟩
  · simp [transportSkips, h0]
  · by_cases hm : m = ""
    · simp [initMinLevel, hm]
    · simp [initMinLevel, hm, h0]

/-- Witness for C10 at the concrete unrecognized level `"verbose"`. -/
theorem C10_unrecognized_minlevel_witness :
    Level.Index "verbose" = 0 ∧ ¬ transportSkips "error" "verbose" ∧
      initMinLevel "verbose" = "" := by
  have h := C10_unrecognized_minlevel "verbose" (by decide)
  exact ⟨h.1, h.2.1 "error", h.2.2⟩

/-! ## Claim C8: throttled error reporting -/

/-- C8 counterexample: the file sink's error path is not throttled.  Two
write failures one nanosecond apart (well inside a 10-minute window)
produce two error lines on the console, not at most one as the claim
requires. -/
theorem C8_counterexample :
    fileShowErrorRun false [0, 1] = 2 ∧ ¬ fileShowErrorRun false [0, 1] ≤ 1 := by
  constructor
  · rfl
  · decide

/-- With suppression off, `FileTransporter.showError` emits one line per
failure. -/
theorem fileShowErrorRun_length (failures : List ℤ) :
    fileShowErrorRun false failures = failures.length := by
  have key : ∀ (l : List ℤ) (n : ℕ),
      l.foldl (fun acc _ => fileShowError false acc) n = n + l.length := by
    intro l
    induction l with
    | nil => intro n; simp
    | cons t rest ih =>
        intro n
        have hone : fileShowError false n = n + 1 := rfl
        rw [List.foldl_cons, ih (fileShowError false n), hone, List.length_cons]
        omega
  simpa using key failures 0

/-- Failures that all fall inside the cool-down window that started at
`last` leave the server sink's error state unchanged. -/
theorem serverShowErrorRun_burst (failures : List ℤ) (last : ℤ) (em : List ℤ)
    (h : ∀ t ∈ failures, t ≤ last + errorCooldown) :
    serverShowErrorRun false failures { lastErrorShown := last, emits := em } =
      { lastErrorShown := last, emits := em } := by
  induction failures with
  | nil => rfl
  | cons t rest ih =>
      have ht : t ≤ last + errorCooldown := h t (by simp)
      have hstep : serverShowError false t { lastErrorShown := last, emits := em } =
          { lastErrorShown := last, emits := em } := by
        unfold serverShowError
        rw [if_neg]
        rintro ⟨-, hlt⟩
        exact absurd hlt (not_lt.2 ht)
      simp only [serverShowErrorRun, List.foldl_cons]
      simp only [serverShowErrorRun] at ih
      rw [hstep]
      exact ih fun t' ht' => h t' (by simp [ht'])

/-- C8 amended: the 10-minute cool-down belongs to the server sink only.
`ServerTransporter.showError` surfaces exactly one error line for any
burst of failures inside the cool-down window and surfaces a second one
only after the window has elapsed, while `FileTransporter.showError`
prints every single error (unless `SuppressErrors` is set). -/
theorem C8_amended :
    (∀ failures : List ℤ, fileShowErrorRun false failures = failures.length) ∧
    (∀ (t0 : ℤ) (rest : List ℤ) (s : SrvErrState),
      s.lastErrorShown + errorCooldown < t0 →
      (∀ t ∈ rest, t ≤ t0 + errorCooldown) →
      serverShowErrorRun false (t0 :: rest) s =
        { lastErrorShown := t0, emits := s.emits ++ [t0] }) ∧
    (∀ (t0 t1 : ℤ) (em : List ℤ), t0 + errorCooldown < t1 →
      serverShowError false t1 { lastErrorShown := t0, emits := em } =
        { lastErrorShown := t1, emits := em ++ [t1] }) := by
  refine ⟨fileShowErrorRun_length, ?_, ?_⟩
  · intro t0 rest s h0 hrest
    have hstep : serverShowError false t0 s =
        { lastErrorShown := t0, emits := s.emits ++ [t0] } := by
      unfold serverShowError
      rw [if_pos]
      exact ⟨by simp, h0⟩
    simp only [serverShowErrorRun, List.foldl_cons]
    rw [hstep]
    exact serverShowErrorRun_burst rest t0 (s.emits ++ [t0]) hrest
  · intro t0 t1 em h
    unfold serverShowError
    rw [if_pos]
    exact ⟨by simp, h⟩

/-- Witness for C8 amended: a concrete burst of three server failures
inside one window yields one error line; a later failure past the window
yields the second. -/
theorem C8_amended_witness :
    serverShowErrorRun false [700000000000, 700000000005, 1200000000000]
        { lastErrorShown := 0, emits := [] } =
      { lastErrorShown := 700000000000, emits := [700000000000] } ∧
    serverShowError false 1300000000001
        { lastErrorShown := 700000000000, emits := [700000000000] } =
      { lastErrorShown := 1300000000001,
        emits := [700000000000, 1300000000001] } ∧
    fileShowErrorRun false [0, 1, 2] = 3 := by
  refine ⟨?_, ?_, C8_amended.1 [0, 1, 2]⟩
  · exact C8_amended.2.1 700000000000 [700000000005, 1200000000000]
      { lastErrorShown := 0, emits := [] } (by decide) (by decide)
  · exact C8_amended.2.2 700000000000 1300000000001 [700000000000] (by decide)


/-! ## Claim C9: the line-based rotation threshold -/

/-- The line counter after a successful `WriteString`. -/
theorem handleWritten_flines (cfg : FileCfg) (n : ℤ) (x : ℕ) (st : FState) :
    (handleWritten cfg n x st).flines =
      if cfg.rotateLines > 0 then st.flines + 1 else st.flines := rfl

/-- A write that stays strictly below the line threshold does not
rotate. -/
theorem handleEntry_no_rotate (cfg : FileCfg) (e : RotErr) (order : List ℕ)
    (n : ℤ) (x : ℕ) (st : FState)
    (hB : ¬ cfg.rotateBytes > 0) (hL : 0 < cfg.rotateLines)
    (hlt : st.flines + 1 < cfg.rotateLines) :
    handleEntry cfg e order n x st =
      { st with live := st.live ++ [x], flines := st.flines + 1 } := by
  have h1 : ¬ (cfg.rotateBytes > 0 ∧
      (handleWritten cfg n x st).fsize ≥ cfg.rotateBytes) := fun h => hB h.1
  have h2 : ¬ (cfg.rotateLines > 0 ∧
      (handleWritten cfg n x st).flines ≥ cfg.rotateLines) := by
    rw [handleWritten_flines, if_pos hL]
    rintro ⟨-, hge⟩
    omega
  unfold handleEntry
  rw [if_neg h1, if_neg h2]
  unfold handleWritten
  rw [if_neg hB, if_pos hL]

/-- A write that reaches the line threshold rotates the state holding
the freshly appended entry. -/
theorem handleEntry_trigger (cfg : FileCfg) (e : RotErr) (order : List ℕ)
    (n : ℤ) (x : ℕ) (st : FState)
    (hB : ¬ cfg.rotateBytes > 0) (hL : 0 < cfg.rotateLines)
    (hge : cfg.rotateLines ≤ st.flines + 1) :
    handleEntry cfg e order n x st =
      fileRotate cfg e order { st with live := st.live ++ [x], flines := st.flines + 1 } := by
  have h1 : ¬ (cfg.rotateBytes > 0 ∧
      (handleWritten cfg n x st).fsize ≥ cfg.rotateBytes) := fun h => hB h.1
  have h2 : cfg.rotateLines > 0 ∧
      (handleWritten cfg n x st).flines ≥ cfg.rotateLines := by
    rw [handleWritten_flines, if_pos hL]
    exact ⟨hL, hge⟩
  unfold handleEntry
  rw [if_neg h1, if_pos h2]
  unfold handleWritten
  rw [if_neg hB, if_pos hL]

/-- An error-free rotation whose counter guard passes truncates the live
file and resets both counters. -/
theorem fileRotate_ok (cfg : FileCfg) (order : List ℕ) (st : FState)
    (hguard : ¬ ((cfg.rotateBytes > 0 ∧ st.fsize = 0) ∨
      (cfg.rotateLines > 0 ∧ st.flines = 0))) :
    fileRotate cfg noRotErr order st =
      { st with
        rotCount := st.rotCount + 1
        archives := setA (rotatedArchives cfg.rotations noRotErr order st.archives) 1 st.live
        live := []
        fsize := 0
        flines := 0 } := by
  unfold fileRotate
  rw [if_neg hguard]
  rfl

/-- Below the line threshold the handler only appends: with byte
rotation disabled and enough room before `RotateLines`, a write burst
leaves `rotCount`, `fsize` and the archives unchanged and advances
`flines` by one per entry. -/
theorem writeSeq_below_threshold (cfg : FileCfg) (e : RotErr) (order : List ℕ)
    (hB : ¬ cfg.rotateBytes > 0) (hL : 0 < cfg.rotateLines) :
    ∀ (es : List (ℤ × ℕ)) (st : FState),
      st.flines + es.length ≤ cfg.rotateLines - 1 →
      writeSeq cfg e order es st =
        { st with
          live := st.live ++ es.map Prod.snd
          flines := st.flines + es.length } := by
  intro es
  induction es with
  | nil =>
      intro st hroom
      show st = _
      cases st
      simp
  | cons p rest ih =>
      intro st hroom
      simp only [List.length_cons] at hroom
      have hlt : st.flines + 1 < cfg.rotateLines := by push_cast at hroom ⊢; omega
      have hstep := handleEntry_no_rotate cfg e order p.1 p.2 st hB hL hlt
      show writeSeq cfg e order rest (handleEntry cfg e order p.1 p.2 st) = _
      rw [hstep, ih _ (by simp only []; push_cast at hroom ⊢; omega)]
      simp only [List.map_cons, List.append_assoc, List.singleton_append,
        List.length_cons]
      congr 1
      push_cast
      ring

/-- A write burst whose last entry makes the line counter reach the
threshold performs exactly one rotation, which empties the live file and
resets both counters. -/
theorem writeSeq_reach_threshold (cfg : FileCfg) (order : List ℕ)
    (hB : ¬ cfg.rotateBytes > 0) (hL : 0 < cfg.rotateLines) :
    ∀ (es : List (ℤ × ℕ)) (st : FState), es ≠ [] →
      st.flines + es.length = cfg.rotateLines →
      (writeSeq cfg noRotErr order es st).rotCount = st.rotCount + 1 ∧
      (writeSeq cfg noRotErr order es st).flines = 0 ∧
      (writeSeq cfg noRotErr order es st).fsize = 0 ∧
      (writeSeq cfg noRotErr order es st).live = [] := by
  intro es
  induction es with
  | nil => intro st hne _; exact absurd rfl hne
  | cons p rest ih =>
      intro st hne htot
      simp only [List.length_cons] at htot
      cases rest with
      | nil =>
          have hge : cfg.rotateLines ≤ st.flines + 1 := by
            simp only [List.length_nil] at htot
            push_cast at htot; omega
          have hstep := handleEntry_trigger cfg noRotErr order p.1 p.2 st hB hL hge
          have hf : ({ st with live := st.live ++ [p.2], flines := st.flines + 1 } :
              FState).flines = st.flines + 1 := rfl
          have hguard : ¬ ((cfg.rotateBytes > 0 ∧
              ({ st with live := st.live ++ [p.2], flines := st.flines + 1 } :
                FState).fsize = 0) ∨
              (cfg.rotateLines > 0 ∧
              ({ st with live := st.live ++ [p.2], flines := st.flines + 1 } :
                FState).flines = 0)) := by
            rintro (⟨hb, -⟩ | ⟨-, hz⟩)
            · exact hB hb
            · rw [hf] at hz
              simp only [List.length_nil] at htot
              push_cast at htot
              omega
          simp only [writeSeq, List.foldl_cons, List.foldl_nil]
          rw [hstep, fileRotate_ok _ _ _ hguard]
          exact ⟨rfl, rfl, rfl, rfl⟩
      | cons q rest' =>
          have hlt : st.flines + 1 < cfg.rotateLines := by
            simp only [List.length_cons] at htot
            push_cast at htot
            omega
          have hstep := handleEntry_no_rotate cfg noRotErr order p.1 p.2 st hB hL hlt
          have htot' : ({ st with live := st.live ++ [p.2], flines := st.flines + 1 } :
              FState).flines + ((q :: rest').length : ℤ) = cfg.rotateLines := by
            show st.flines + 1 + ((q :: rest').length : ℤ) = cfg.rotateLines
            simp only [List.length_cons] at htot ⊢
            push_cast at htot ⊢
            omega
          have := ih { st with live := st.live ++ [p.2], flines := st.flines + 1 }
            (by simp) htot'
          simp only [writeSeq, List.foldl_cons] at this ⊢
          rw [hstep]
          exact this

/-- C9: for a file sink with line-based rotation threshold
`RotateLines > 0` (byte rotation disabled) and the baseline line count
taken at `Init`, writing entries while the file's total line count stays
at most `RotateLines - 1` never triggers a rotation, and the write that
brings the total to `RotateLines` triggers exactly one rotation, after
which the live file is empty and the byte and line counters are zero. -/
theorem C9_rotate_lines_threshold (cfg : FileCfg) (order : List ℕ)
    (live0 : List ℕ) (sz : ℤ) (arch : List (ℕ × List ℕ))
    (hB : ¬ cfg.rotateBytes > 0) (hL : 0 < cfg.rotateLines) :
    (∀ es : List (ℤ × ℕ),
      (live0.length : ℤ) + es.length ≤ cfg.rotateLines - 1 →
      (writeSeq cfg noRotErr order es (fileInit cfg live0 sz arch)).rotCount = 0 ∧
      (writeSeq cfg noRotErr order es (fileInit cfg live0 sz arch)).flines =
        (live0.length : ℤ) + es.length) ∧
    (∀ es : List (ℤ × ℕ), es ≠ [] →
      (live0.length : ℤ) + es.length = cfg.rotateLines →
      (writeSeq cfg noRotErr order es (fileInit cfg live0 sz arch)).rotCount = 1 ∧
      (writeSeq cfg noRotErr order es (fileInit cfg live0 sz arch)).flines = 0 ∧
      (writeSeq cfg noRotErr order es (fileInit cfg live0 sz arch)).fsize = 0 ∧
      (writeSeq cfg noRotErr order es (fileInit cfg live0 sz arch)).live = []) := by
  have hfl : (fileInit cfg live0 sz arch).flines = (live0.length : ℤ) := by
    unfold fileInit
    exact if_pos hL
  constructor
  · intro es hroom
    have h := writeSeq_below_threshold cfg noRotErr order hB hL es
      (fileInit cfg live0 sz arch) (by rw [hfl]; exact hroom)
    rw [h]
    exact ⟨rfl, by rw [hfl]⟩
  · intro es hne htot
    have h := writeSeq_reach_threshold cfg order hB hL es
      (fileInit cfg live0 sz arch) hne (by rw [hfl]; exact htot)
    exact ⟨h.1, h.2⟩

/-- Witness for C9: threshold 3, empty baseline; two writes never
rotate, the third write rotates once and empties the file. -/
theorem C9_rotate_lines_threshold_witness :
    (writeSeq ⟨0, 3, 4⟩ noRotErr [] [(5, 100), (5, 101)]
      (fileInit ⟨0, 3, 4⟩ [] 0 [])).rotCount = 0 ∧
    (writeSeq ⟨0, 3, 4⟩ noRotErr [] [(5, 100), (5, 101), (5, 102)]
      (fileInit ⟨0, 3, 4⟩ [] 0 [])).rotCount = 1 ∧
    (writeSeq ⟨0, 3, 4⟩ noRotErr [] [(5, 100), (5, 101), (5, 102)]
      (fileInit ⟨0, 3, 4⟩ [] 0 [])).live = [] := by
  have h := C9_rotate_lines_threshold ⟨0, 3, 4⟩ [] [] 0 []
    (by decide) (by decide)
  refine ⟨(h.1 [(5, 100), (5, 101)] (by decide)).1, ?_, ?_⟩
  · exact (h.2 [(5, 100), (5, 101), (5, 102)] (by decide) (by decide)).1
  · exact (h.2 [(5, 100), (5, 101), (5, 102)] (by decide) (by decide)).2.2.2

/-! ## Claims C2–C6: the queue contract -/

/-- C2: after `close()` returns, every job accepted before close began
has been executed exactly once: whenever `closeEnd` is enabled at the
end of a run from `newQueue`'s state, the executed list is exactly the
accepted list, so each acceptance has exactly one execution. -/
theorem C2_close_drains {capacity : ℕ} {evs : List QEvent} {q q' : QState}
    (h : QTrace (qInit capacity) evs q) (hend : QStep q .closeEnd q') :
    q'.executed = q'.accepted ∧
      ∀ j : ℕ, q'.executed.count j = q'.accepted.count j := by
  obtain ⟨-, hacc, -⟩ := qtrace_init_inv h
  cases hend with
  | closeEnd hclosed hpending =>
      rw [hpending, List.append_nil] at hacc
      exact ⟨hacc.symm, fun j => by rw [hacc]⟩

/-- Witness for C2: a run that accepts job 7, starts closing, executes
the job and completes the close. -/
theorem C2_close_drains_witness :
    (⟨2, [], [7], true, [7]⟩ : QState).executed =
      (⟨2, [], [7], true, [7]⟩ : QState).accepted := by
  have htrace : QTrace (qInit 2) [.submit 7 true, .closeBegin, .exec 7]
      ⟨2, [], [7], true, [7]⟩ :=
    QTrace.cons (QStep.submitOk rfl (by decide))
      (QTrace.cons QStep.closeBegin
        (QTrace.cons (QStep.exec rfl) (QTrace.nil _)))
  exact (C2_close_drains htrace (QStep.closeEnd rfl rfl)).1

/-- C3: the queue's capacity is fixed at construction and bounds the
pending buffer in every reachable state; a submission to a full open
queue is not enabled (the producer blocks, the job is not dropped); and
any number of jobs can nevertheless be pushed through a queue of
capacity at least 1, each executing exactly once. -/
theorem C3_capacity_backpressure :
    (∀ (capacity : ℕ) (evs : List QEvent) (q : QState),
      QTrace (qInit capacity) evs q → q.pending.length ≤ capacity) ∧
    (∀ (q : QState) (j : ℕ), q.closed = false → q.pending.length = q.qcap →
      ¬ ∃ (r : Bool) (q' : QState), QStep q (.submit j r) q') ∧
    (∀ (capacity : ℕ) (jobs : List ℕ), 1 ≤ capacity →
      ∃ (evs : List QEvent) (q : QState),
        QTrace (qInit capacity) evs q ∧ q.executed = jobs ∧ q.accepted = jobs) := by
  refine ⟨?_, ?_, ?_⟩
  · intro capacity evs q h
    exact (qtrace_init_inv h).2.2
  · rintro q j hopen hfull ⟨r, q', hstep⟩
    cases hstep with
    | submitOk hclosed hlt => omega
    | submitClosed hclosed => rw [hopen] at hclosed; cases hclosed
  · intro capacity jobs hcap
    have key : ∀ (js : List ℕ) (E : List ℕ),
        ∃ evs : List QEvent,
          QTrace (⟨capacity, [], E, false, E⟩ : QState) evs
            ⟨capacity, [], E ++ js, false, E ++ js⟩ := by
      intro js
      induction js with
      | nil =>
          intro E
          exact ⟨[], by simpa using QTrace.nil _⟩
      | cons j rest ih =>
          intro E
          obtain ⟨evs, htail⟩ := ih (E ++ [j])
          refine ⟨.submit j true :: .exec j :: evs, ?_⟩
          have h1 : QStep (⟨capacity, [], E, false, E⟩ : QState) (.submit j true)
              ⟨capacity, [j], E, false, E ++ [j]⟩ :=
            QStep.submitOk rfl (by simpa using hcap)
          have h2 : QStep (⟨capacity, [j], E, false, E ++ [j]⟩ : QState) (.exec j)
              ⟨capacity, [], E ++ [j], false, E ++ [j]⟩ := QStep.exec rfl
          have htail' : QTrace (⟨capacity, [], E ++ [j], false, E ++ [j]⟩ : QState)
              evs ⟨capacity, [], E ++ (j :: rest), false, E ++ (j :: rest)⟩ := by
            simpa [List.append_assoc] using htail
          exact QTrace.cons h1 (QTrace.cons h2 htail')
    obtain ⟨evs, h⟩ := key jobs []
    exact ⟨evs, _, by simpa [qInit] using h, rfl, rfl⟩

/-- Witness for C3: a one-submission run respects the bound of a
capacity-2 queue; a full open capacity-1 queue admits no submit step;
three jobs pass through a capacity-1 queue. -/
theorem C3_capacity_backpressure_witness :
    (⟨2, [7], [], false, [7]⟩ : QState).pending.length ≤ 2 ∧
    (¬ ∃ (r : Bool) (q' : QState),
      QStep ⟨1, [5], [], false, [5]⟩ (.submit 9 r) q') ∧
    (∃ (evs : List QEvent) (q : QState),
      QTrace (qInit 1) evs q ∧ q.executed = [4, 5, 6] ∧ q.accepted = [4, 5, 6]) := by
  refine ⟨?_, ?_, ?_⟩
  · exact C3_capacity_backpressure.1 2 [.submit 7 true] _
      (QTrace.cons (QStep.submitOk rfl (by decide)) (QTrace.nil _))
  · exact C3_capacity_backpressure.2.1 _ 9 rfl rfl
  · exact C3_capacity_backpressure.2.2 1 [4, 5, 6] (by decide)

/-- C4: with worker count 1 the handler executes jobs in exactly the
submission order: in every reachable state the executed list followed by
the pending list is the accepted list, so the executed jobs always form
the submission-order prefix of the accepted jobs. -/
theorem C4_single_worker_order {capacity : ℕ} {evs : List QEvent} {q : QState}
    (h : QTrace (qInit capacity) evs q) :
    q.executed ++ q.pending = q.accepted ∧ q.executed <+: q.accepted := by
  obtain ⟨-, hacc, -⟩ := qtrace_init_inv h
  exact ⟨hacc.symm, ⟨q.pending, hacc.symm⟩⟩

/-- Witness for C4: after submitting 7 then 8 and executing one job, the
executed prefix is `[7]` and `[7] ++ [8]` is the accepted order. -/
theorem C4_single_worker_order_witness :
    (⟨2, [8], [7], false, [7, 8]⟩ : QState).executed ++
        (⟨2, [8], [7], false, [7, 8]⟩ : QState).pending =
      (⟨2, [8], [7], false, [7, 8]⟩ : QState).accepted := by
  have htrace : QTrace (qInit 2) [.submit 7 true, .submit 8 true, .exec 7]
      ⟨2, [8], [7], false, [7, 8]⟩ :=
    QTrace.cons (QStep.submitOk rfl (by decide))
      (QTrace.cons (QStep.submitOk rfl (by decide))
        (QTrace.cons (QStep.exec rfl) (QTrace.nil _)))
  exact (C4_single_worker_order htrace).1

/-- C5: `submit` returns false iff the queue is closed at submission
time, a rejected submission leaves the queue unchanged (so the job is
never partially executed), and `FileTransporter.Transport` on a closed
sink does not enqueue anything. -/
theorem C5_submit_after_close :
    (∀ (q q' : QState) (j : ℕ) (r : Bool),
      QStep q (.submit j r) q' → (r = false ↔ q.closed = true)) ∧
    (∀ (q q' : QState) (j : ℕ),
      QStep q (.submit j false) q' → q' = q) ∧
    (∀ level minLevel : String,
      fileTransportEnqueues true level minLevel = false) := by
  refine ⟨?_, ?_, ?_⟩
  · intro q q' j r hstep
    cases hstep with
    | submitOk hclosed hlt => simp [hclosed]
    | submitClosed hclosed => simp [hclosed]
  · intro q q' j hstep
    cases hstep with
    | submitClosed hclosed => rfl
  · intro level minLevel
    rfl

/-- Witness for C5 on a concrete closed queue. -/
theorem C5_submit_after_close_witness :
    (false = false ↔ (⟨2, [], [], true, []⟩ : QState).closed = true) ∧
    (⟨2, [], [], true, []⟩ : QState) = ⟨2, [], [], true, []⟩ ∧
    fileTransportEnqueues true "info" "" = false := by
  refine ⟨?_, ?_, ?_⟩
  · exact C5_submit_after_close.1 ⟨2, [], [], true, []⟩ ⟨2, [], [], true, []⟩ 3 false
      (QStep.submitClosed rfl)
  · exact C5_submit_after_close.2.1 ⟨2, [], [], true, []⟩ ⟨2, [], [], true, []⟩ 3
      (QStep.submitClosed rfl)
  · exact C5_submit_after_close.2.2 "info" ""

/-- C6: closing is idempotent: on a queue that has already completed a
close (closed and drained), both phases of a second `close()` are
enabled and leave the state unchanged — no block, no re-execution. -/
theorem C6_close_idempotent (q : QState) (hclosed : q.closed = true)
    (hdrained : q.pending = []) :
    QStep q .closeBegin q ∧ QStep q .closeEnd q := by
  constructor
  · have h := QStep.closeBegin (q := q)
    have heq : ({ q with closed := true } : QState) = q := by
      cases q
      simp_all
    rwa [heq] at h
  · exact QStep.closeEnd hclosed hdrained

/-- Witness for C6 on a concrete closed, drained queue. -/
theorem C6_close_idempotent_witness :
    QStep ⟨2, [], [9], true, [9]⟩ .closeBegin ⟨2, [], [9], true, [9]⟩ ∧
    QStep ⟨2, [], [9], true, [9]⟩ .closeEnd ⟨2, [], [9], true, [9]⟩ :=
  C6_close_idempotent _ rfl rfl

/-! ## Claim C7: errors during rotation -/

/-- When the directory scan fails, the archive-shift loop leaves the
directory untouched. -/
theorem rotatedArchives_readDirErr (rotations : ℤ) (order : List ℕ)
    (a : List (ℕ × List ℕ)) :
    rotatedArchives rotations ⟨true, false, false, false⟩ order a = a := by
  unfold rotatedArchives rotateShift
  by_cases h : hasKeyA a 1 = true <;> simp [h]

/-- C7 counterexample: a planning error (`ioutil.ReadDir` failing inside
`rotateArchives`) does not abort the rotation.  With one archive
`<prefix>.1.gz` holding `[5]` and a live file holding `[7, 8]`, the
rotation still truncates the live file to empty and overwrites the
never-vacated generation-1 archive with the compressed live file; the
claim requires the live file to keep its contents and the archive to
survive. -/
theorem C7_counterexample :
    (fileRotate ⟨0, 2, 4⟩ ⟨true, false, false, false⟩ []
      { live := [7, 8], fsize := 0, flines := 2,
        archives := [(1, [5])], rotCount := 0 }).live = [] ∧
    lookupA (fileRotate ⟨0, 2, 4⟩ ⟨true, false, false, false⟩ []
      { live := [7, 8], fsize := 0, flines := 2,
        archives := [(1, [5])], rotCount := 0 }).archives 1 = some [7, 8] := by
  exact ⟨rfl, rfl⟩

/-- C7 amended: an error while scanning or renaming the archives does
not abort the rotation attempt — the error is only reported, the live
file is still compressed into the (possibly still occupied) generation-1
slot, the live file is truncated and the counters are reset.  Only the
later steps abort on error: if opening the archive file fails, the live
file, the counters and the (already renamed) archives are left as they
are; if copying fails, the generation-1 archive has already been
truncated to the partial stream but the live file and counters are
untouched; if truncating the live file fails, the new archive exists but
the live file and counters are untouched. -/
theorem C7_amended (cfg : FileCfg) (order : List ℕ) (st : FState)
    (hguard : ¬ ((cfg.rotateBytes > 0 ∧ st.fsize = 0) ∨
      (cfg.rotateLines > 0 ∧ st.flines = 0))) :
    (fileRotate cfg ⟨true, false, false, false⟩ order st =
      { st with
        rotCount := st.rotCount + 1
        archives := setA st.archives 1 st.live
        live := []
        fsize := 0
        flines := 0 }) ∧
    (fileRotate cfg ⟨false, true, false, false⟩ order st =
      { st with
        rotCount := st.rotCount + 1
        archives := rotatedArchives cfg.rotations ⟨false, true, false, false⟩
          order st.archives }) ∧
    (fileRotate cfg ⟨false, false, true, false⟩ order st =
      { st with
        rotCount := st.rotCount + 1
        archives := setA (rotatedArchives cfg.rotations ⟨false, false, true, false⟩
          order st.archives) 1 [] }) ∧
    (fileRotate cfg ⟨false, false, false, true⟩ order st =
      { st with
        rotCount := st.rotCount + 1
        archives := setA (rotatedArchives cfg.rotations ⟨false, false, false, true⟩
          order st.archives) 1 st.live }) := by
  refine ⟨?_, ?_, ?_, ?_⟩
  · unfold fileRotate
    rw [if_neg hguard, rotatedArchives_readDirErr]
    rfl
  · unfold fileRotate
    rw [if_neg hguard]
    rfl
  · unfold fileRotate
    rw [if_neg hguard]
    rfl
  · unfold fileRotate
    rw [if_neg hguard]
    rfl

/-- Witness for C7 amended at a concrete sink state. -/
theorem C7_amended_witness :
    fileRotate ⟨0, 2, 4⟩ ⟨true, false, false, false⟩ [1]
        ⟨[7, 8], 0, 2, [(1, [5])], 0⟩ =
      { live := [], fsize := 0, flines := 0,
        archives := setA [(1, [5])] 1 [7, 8], rotCount := 1 } :=
  (C7_amended ⟨0, 2, 4⟩ [1] ⟨[7, 8], 0, 2, [(1, [5])], 0⟩ (by decide)).1

/-! ## Claim C1: the retention boundary and the rotation result -/

/-- C1 counterexample: with archives `test.log.1.gz`, `test.log.2.gz`
and `test.log.3.gz` and retention `Rotations = 4`, one rotation does
not produce four archives: `rotateArchives` deletes an archive already
when `index+1 >= Rotations`, so the old generation 3 is removed (even
though its shifted index 4 does not exceed the retention count) and no
`test.log.4.gz` is ever created — the result is exactly the three
archives 1, 2 and 3. -/
theorem C1_counterexample :
    lookupA (fileRotate ⟨0, 4, 4⟩ noRotErr [2, 1]
      { live := [7], fsize := 0, flines := 1,
        archives := [(1, [11]), (2, [12]), (3, [13])], rotCount := 0 }).archives 4 =
      none ∧
    keysA (fileRotate ⟨0, 4, 4⟩ noRotErr [2, 1]
      { live := [7], fsize := 0, flines := 1,
        archives := [(1, [11]), (2, [12]), (3, [13])], rotCount := 0 }).archives ≠
      {1, 2, 3, 4} := by
  decide

/-- The deletion test of `rotateArchives`, as a proposition. -/
theorem archiveDeleted_iff (R : ℤ) (i : ℕ) :
    archiveDeleted R i = true ↔ i < 10 ∧ 0 < R ∧ R ≤ (i : ℤ) + 1 := by
  simp [archiveDeleted, archiveParsed, Bool.and_eq_true, decide_eq_true_eq]

/-- The rename test of `rotateArchives`, as a proposition. -/
theorem archiveRenamed_iff (R : ℤ) (i : ℕ) :
    archiveRenamed R i = true ↔ i < 10 ∧ ¬ (0 < R ∧ R ≤ (i : ℤ) + 1) := by
  simp only [archiveRenamed, Bool.and_eq_true, Bool.not_eq_true',
    Bool.eq_false_iff, Ne, archiveDeleted_iff, archiveParsed,
    decide_eq_true_eq]
  tauto

/-- Membership in one shift pass, for directories whose generation
indices all lie in `[1, 9]` and retention at least 2: exactly the
successors of the surviving generations. -/
theorem mem_shiftIdx_small {R : ℤ} (hR2 : 2 ≤ R) {S : Finset ℕ}
    (hS : ∀ i ∈ S, 1 ≤ i ∧ i ≤ 9) {j : ℕ} :
    j ∈ shiftIdx R S ↔ ∃ i ∈ S, (i : ℤ) + 1 < R ∧ j = i + 1 := by
  unfold shiftIdx
  rw [Finset.mem_union]
  constructor
  · rintro (h1 | h2)
    · obtain ⟨hmem, hnp⟩ := Finset.mem_filter.1 h1
      have h9 := (hS j hmem).2
      simp only [archiveParsed, Bool.not_eq_true', decide_eq_false_iff_not] at hnp
      omega
    · obtain ⟨i, hi, rfl⟩ := Finset.mem_image.1 h2
      obtain ⟨hmem, hr⟩ := Finset.mem_filter.1 hi
      rw [archiveRenamed_iff] at hr
      refine ⟨i, hmem, ?_, rfl⟩
      rcases hr with ⟨-, hnd⟩
      by_contra hge
      exact hnd ⟨by omega, by omega⟩
  · rintro ⟨i, hi, hlt, rfl⟩
    refine Or.inr (Finset.mem_image.2 ⟨i, Finset.mem_filter.2 ⟨hi, ?_⟩, rfl⟩)
    rw [archiveRenamed_iff]
    have h9 := (hS i hi).2
    exact ⟨by omega, fun h => by omega⟩

/-- For directories inside `[1, 9]`, a shift pass never produces
generation 1 again. -/
theorem shiftIdx_not_one {R : ℤ} (hR2 : 2 ≤ R) {S : Finset ℕ}
    (hS : ∀ i ∈ S, 1 ≤ i ∧ i ≤ 9) : 1 ∉ shiftIdx R S := by
  rw [mem_shiftIdx_small hR2 hS]
  rintro ⟨i, hi, -, hji⟩
  have := (hS i hi).1
  omega

/-- Membership after one full rotation, when a generation-1 archive
exists: the new archive 1, plus the successors of the surviving old
generations. -/
theorem mem_rotateIdx_small {R : ℤ} (hR2 : 2 ≤ R) {S : Finset ℕ}
    (hS : ∀ i ∈ S, 1 ≤ i ∧ i ≤ 9) (h1 : 1 ∈ S) {j : ℕ} :
    j ∈ rotateIdx R S ↔ j = 1 ∨ ∃ i ∈ S, (i : ℤ) + 1 < R ∧ j = i + 1 := by
  unfold rotateIdx
  rw [if_pos h1, if_neg (shiftIdx_not_one hR2 hS), Finset.mem_insert,
    mem_shiftIdx_small hR2 hS]

/-- One rotation keeps the directory inside `[1, 9]` (for retention at
most 10) and always creates generation 1. -/
theorem rotateIdx_small {R : ℤ} (hR2 : 2 ≤ R) (hR10 : R ≤ 10) {S : Finset ℕ}
    (hS : ∀ i ∈ S, 1 ≤ i ∧ i ≤ 9) :
    (∀ j ∈ rotateIdx R S, 1 ≤ j ∧ j ≤ 9) ∧ 1 ∈ rotateIdx R S := by
  constructor
  · intro j hj
    by_cases h1 : 1 ∈ S
    · rw [mem_rotateIdx_small hR2 hS h1] at hj
      rcases hj with rfl | ⟨i, hi, hlt, rfl⟩
      · omega
      · have := hS i hi
        constructor
        · omega
        · omega
    · unfold rotateIdx at hj
      rw [if_neg h1, Finset.mem_insert] at hj
      rcases hj with rfl | hj
      · omega
      · exact hS j hj
  · exact Finset.mem_insert_self 1 _

/-- Closed form for iterated rotations starting from a directory inside
`[1, 9]` that already has a generation-1 archive: after `k + 1` further
rotations the directory holds the fresh generations `1 .. min (k+2)
(R-1)` together with the survivors of the original archives, each
shifted up by `k + 1`. -/
theorem rotateIdx_iter_formula {R : ℤ} (hR2 : 2 ≤ R) (hR10 : R ≤ 10) :
    ∀ (k : ℕ) (T : Finset ℕ), (∀ i ∈ T, 1 ≤ i ∧ i ≤ 9) → 1 ∈ T →
      (rotateIdx R)^[k + 1] T =
        Finset.Icc 1 (min (k + 2) (R.toNat - 1)) ∪
          (T.filter (fun i : ℕ => (i : ℤ) + (k + 1) ≤ R - 1)).image (· + (k + 1)) := by
  have hN : ((R.toNat : ℤ)) = R := Int.toNat_of_nonneg (by omega)
  intro k
  induction k with
  | zero =>
      intro T hT h1
      rw [Function.iterate_one]
      ext j
      rw [mem_rotateIdx_small hR2 hT h1]
      simp only [Finset.mem_union, Finset.mem_Icc, Finset.mem_image,
        Finset.mem_filter]
      constructor
      · rintro (rfl | ⟨i, hi, hlt, rfl⟩)
        · left
          omega
        · right
          exact ⟨i, ⟨hi, by push_cast; omega⟩, rfl⟩
      · rintro (⟨hj1, hj2⟩ | ⟨i, ⟨hi, hcond⟩, rfl⟩)
        · rcases Nat.eq_or_lt_of_le hj1 with heq | hlt2
          · exact Or.inl heq.symm
          · refine Or.inr ⟨j - 1, ?_, ?_, by omega⟩
            · have : j - 1 = 1 := by omega
              rw [this]
              exact h1
            · omega
        · refine Or.inr ⟨i, hi, ?_, rfl⟩
          push_cast at hcond
          omega
  | succ k ih =>
      intro T hT h1
      have hik := ih T hT h1
      have hX1 : 1 ∈ Finset.Icc 1 (min (k + 2) (R.toNat - 1)) ∪
          (T.filter (fun i : ℕ => (i : ℤ) + (k + 1) ≤ R - 1)).image (· + (k + 1)) := by
        rw [Finset.mem_union, Finset.mem_Icc]
        left
        omega
      have hXb : ∀ j ∈ Finset.Icc 1 (min (k + 2) (R.toNat - 1)) ∪
          (T.filter (fun i : ℕ => (i : ℤ) + (k + 1) ≤ R - 1)).image (· + (k + 1)),
          1 ≤ j ∧ j ≤ 9 := by
        intro j hj
        rw [Finset.mem_union] at hj
        rcases hj with hj | hj
        · rw [Finset.mem_Icc] at hj
          omega
        · obtain ⟨i, hi, rfl⟩ := Finset.mem_image.1 hj
          obtain ⟨hiT, hcond⟩ := Finset.mem_filter.1 hi
          have := hT i hiT
          constructor
          · omega
          · omega
      rw [Function.iterate_succ_apply', hik]
      ext j
      rw [mem_rotateIdx_small hR2 hXb hX1]
      simp only [Finset.mem_union, Finset.mem_Icc, Finset.mem_image,
        Finset.mem_filter]
      constructor
      · rintro (rfl | ⟨i, hi, hlt, rfl⟩)
        · left
          omega
        · rcases hi with ⟨hi1, hi2⟩ | ⟨i0, ⟨hi0, hcond⟩, rfl⟩
          · left
            omega
          · right
            refine ⟨i0, ⟨hi0, ?_⟩, by omega⟩
            push_cast at hlt hcond ⊢
            omega
      · rintro (⟨hj1, hj2⟩ | ⟨i, ⟨hi, hcond⟩, rfl⟩)
        · rcases Nat.eq_or_lt_of_le hj1 with heq | hlt2
          · exact Or.inl heq.symm
          · refine Or.inr ⟨j - 1, Or.inl ⟨by omega, by omega⟩, ?_, by omega⟩
            omega
        · refine Or.inr ⟨i + (k + 1), Or.inr ⟨i, ⟨hi, ?_⟩, rfl⟩, ?_, by omega⟩
          · push_cast at hcond ⊢
            omega
          · push_cast at hcond ⊢
            omega

/-- After `R + 2` rotations (retention `2 ≤ R ≤ 10`) any directory of
single-digit positive generations has stabilized to exactly the
generations `1 .. R - 1`. -/
theorem rotateIdx_iter_eventually {R : ℤ} (hR2 : 2 ≤ R) (hR10 : R ≤ 10)
    {S : Finset ℕ} (hS : ∀ i ∈ S, 1 ≤ i ∧ i ≤ 9) :
    (rotateIdx R)^[R.toNat + 2] S = Finset.Icc 1 (R.toNat - 1) := by
  have hN : ((R.toNat : ℤ)) = R := Int.toNat_of_nonneg (by omega)
  obtain ⟨hTb, hT1⟩ := rotateIdx_small hR2 hR10 hS
  have hsplit : (rotateIdx R)^[R.toNat + 2] S =
      (rotateIdx R)^[R.toNat + 1] (rotateIdx R S) := by
    rw [← Function.iterate_succ_apply]
  rw [hsplit, rotateIdx_iter_formula hR2 hR10 R.toNat (rotateIdx R S) hTb hT1]
  have hmin : min (R.toNat + 2) (R.toNat - 1) = R.toNat - 1 := by omega
  have hempty : (rotateIdx R S).filter
      (fun i : ℕ => (i : ℤ) + (R.toNat + 1) ≤ R - 1) = ∅ := by
    rw [Finset.filter_eq_empty_iff]
    intro i hi
    have h1 := (hTb i hi).1
    omega
  rw [hmin, hempty]
  simp

/-- C1 amended: `rotateArchives` renames `<prefix>.<i>.gz` to
`<prefix>.<i+1>.gz` only when the shifted index `i+1` is strictly below
the retention count `R`, and deletes the archive as soon as `i+1`
reaches `R`.  With `test.log.1.gz`, `test.log.2.gz`, `test.log.3.gz` and
retention 4, one rotation (renames applied highest index first, as a safe
map order) produces exactly three archives: `test.log.1.gz` (newly
compressed live file), `test.log.2.gz` (old .1), `test.log.3.gz`
(old .2); the old `.3` is deleted and no `.4` appears.  After `R + 2`
rotations (for `2 ≤ R ≤ 10`; the archive-name regex only recognizes
single-digit generations) exactly `R - 1` archives numbered `1 .. R-1`
exist. -/
theorem C1_amended :
    (fileRotate ⟨0, 4, 4⟩ noRotErr [2, 1]
        { live := [7], fsize := 0, flines := 1,
          archives := [(1, [11]), (2, [12]), (3, [13])], rotCount := 0 } =
      { live := [], fsize := 0, flines := 0,
        archives := [(1, [7]), (2, [11]), (3, [12])], rotCount := 1 }) ∧
    (keysA (fileRotate ⟨0, 4, 4⟩ noRotErr [2, 1]
        { live := [7], fsize := 0, flines := 1,
          archives := [(1, [11]), (2, [12]), (3, [13])], rotCount := 0 }).archives =
      rotateIdx 4 {1, 2, 3}) ∧
    (∀ (R : ℤ) (S : Finset ℕ), 2 ≤ R → R ≤ 10 →
      (∀ i ∈ S, 1 ≤ i ∧ i ≤ 9) →
      (rotateIdx R)^[R.toNat + 2] S = Finset.Icc 1 (R.toNat - 1)) := by
  refine ⟨by decide, by decide, ?_⟩
  intro R S hR2 hR10 hS
  exact rotateIdx_iter_eventually hR2 hR10 hS

/-- Witness for C1 amended: retention 4, starting from archives
`{1, 2, 3}`, six further rotations leave exactly the archives
`{1, 2, 3}`. -/
theorem C1_amended_witness :
    (rotateIdx 4)^[6] ({1, 2, 3} : Finset ℕ) = Finset.Icc 1 3 :=
  C1_amended.2.2 4 {1, 2, 3} (by decide) (by decide) (by decide)
